import Mathlib

/-!
# pw-micclick: verification of the threshold-crossing microphone activity detector

Shallow embedding of the core of `src/main.rs`: the amplitude extractor, the
hysteresis detector with hold time, and the event fanout to consumer channels.

Modelling choices:
* Sample amplitudes, instants and durations are rationals (`ℚ`); the claims under
  study are about comparison boundaries and state-machine behaviour, not about
  binary floating-point rounding.
* An mpsc sender is a `Channel`: a `closed` flag (the receiving end was dropped)
  and the FIFO list of events delivered so far.  `send` fails iff closed.
* A Rust `panic!` (including `.expect` on a failed send) is `Option.none` in the
  result of the handler that panicked.
* `Instant::now()` observed during a processing call is passed in as the `now`
  argument; `Instant + Duration` is rational addition.
-/

namespace PwMicclick

/-- The event type `MicEvent` from `src/main.rs` (`Active`, `Inactive`, `Suspended`). -/
inductive MicEvent where
  | Active
  | Inactive
  | Suspended
deriving DecidableEq, Repr

/-- A consumer channel: `closed` models the receiving end having been dropped;
`buf` is the FIFO sequence of events delivered so far. -/
structure Channel where
  closed : Bool
  buf : List MicEvent
deriving DecidableEq, Repr

/-- `mpsc::Sender::send`: delivers the event iff the channel is open, errors
(`none`) iff the receiving end was dropped. -/
def Channel.send (c : Channel) (e : MicEvent) : Option Channel :=
  if c.closed then none else some { c with buf := c.buf ++ [e] }

/-- The `CaptureState` struct from `src/main.rs`: consumer queues, linear
threshold, hold time, falloff deadline, and the `is_on` activity flag. -/
structure CaptureState where
  queues : List Channel
  threshold : ℚ
  hold_time : ℚ
  falloff : ℚ
  is_on : Bool
deriving DecidableEq, Repr

/-- The event-delivery loop `for q in state.queues.iter() { q.send(event).expect(...) }`
shared by both emission sites: delivers `e` to every channel, `none` (panic via
`.expect("cannot send: channel broken")`) iff some channel is closed. -/
def sendAll (e : MicEvent) : List Channel → Option (List Channel)
  | [] => some []
  | q :: rest =>
    match q.send e with
    | none => none
    | some q2 =>
      match sendAll e rest with
      | none => none
      | some rest2 => some (q2 :: rest2)

/-- The peak-amplitude loop of `on_microphone_frame`
(`let mut max = 0f32; for n in 0..n_samples { max = samples[n].abs().max(max); }`):
the running maximum of absolute sample values over the whole interleaved buffer,
starting from `0`. -/
def peak (samples : List ℚ) : ℚ :=
  samples.foldl (fun m s => max |s| m) 0

/-- The hysteresis core of `on_microphone_frame` (lines 158-174), acting on the
already-extracted peak `mx` at instant `now`:
refresh `falloff = now + hold_time` when `mx > threshold` (strict), then match on
`(is_on, now <= falloff)` — `(false, true)` turns on and yields `Active`,
`(true, false)` turns off and yields `Inactive`, anything else changes nothing. -/
def on_sample (state : CaptureState) (mx : ℚ) (now : ℚ) : CaptureState × Option MicEvent :=
  let state := if mx > state.threshold then { state with falloff := now + state.hold_time } else state
  if state.is_on then
    if now ≤ state.falloff then (state, none)
    else ({ state with is_on := false }, some MicEvent.Inactive)
  else
    if now ≤ state.falloff then ({ state with is_on := true }, some MicEvent.Active)
    else (state, none)

/-- `on_microphone_frame` from `src/main.rs` for a successfully dequeued,
correctly aligned buffer: `samples` is the list of the `n_samples` float samples
(all channels interleaved), `now` the `Instant::now()` of the call.  A buffer
with zero samples returns before any hysteresis logic runs.  Otherwise the peak
is extracted, the hysteresis step runs, and a produced event is sent to every
queue (`none` = the `.expect` panic on a broken channel). -/
def on_microphone_frame (samples : List ℚ) (now : ℚ) (state : CaptureState) :
    Option (CaptureState × Option MicEvent) :=
  if samples.length = 0 then some (state, none)
  else
    let res := on_sample state (peak samples) now
    match res.2 with
    | none => some (res.1, none)
    | some e =>
      match sendAll e res.1.queues with
      | none => none
      | some qs => some ({ res.1 with queues := qs }, some e)

/-- The initial `CaptureState` built in `create_capture` (lines 91-97):
`is_on = false`, `falloff = Instant::now()` (the creation instant `now0`).
In the source the `threshold` field is computed from the decibel CLI argument as
`10f32.powf(threshold / 20.)`; the claims considered here are independent of
that conversion, so the state is parametrized directly by the resulting linear
threshold. -/
def create_capture (senders : List Channel) (threshold : ℚ) (hold_time : ℚ) (now0 : ℚ) :
    CaptureState :=
  { queues := senders, threshold := threshold, hold_time := hold_time,
    falloff := now0, is_on := false }

/-- The pipewire `StreamState` variants relevant to `on_microphone_state_changed`. -/
inductive StreamState where
  | Unconnected
  | Connecting
  | Paused
  | Streaming
  | Error : String → StreamState
deriving DecidableEq, Repr

/-- `on_microphone_state_changed` from `src/main.rs` (lines 180-195): any
transition into `Error` panics (`none`); `Paused → Streaming` emits `Inactive`,
`Streaming → Paused` emits `Suspended`, each through the same send-to-every-queue
loop with the same `.expect` panic on a broken channel; all other transitions do
nothing. -/
def on_microphone_state_changed (state : CaptureState) (sold snew : StreamState) :
    Option (CaptureState × Option MicEvent) :=
  match sold, snew with
  | _, StreamState.Error _ => none
  | StreamState.Paused, StreamState.Streaming =>
    match sendAll MicEvent.Inactive state.queues with
    | none => none
    | some qs => some ({ state with queues := qs }, some MicEvent.Inactive)
  | StreamState.Streaming, StreamState.Paused =>
    match sendAll MicEvent.Suspended state.queues with
    | none => none
    | some qs => some ({ state with queues := qs }, some MicEvent.Suspended)
  | _, _ => some (state, none)

/-- Run the hysteresis core over a list of `(peak, now)` processing calls,
collecting the emitted events in order. -/
def runSamples (state : CaptureState) : List (ℚ × ℚ) → CaptureState × List MicEvent
  | [] => (state, [])
  | (mx, now) :: rest =>
    let res := on_sample state mx now
    let res2 := runSamples res.1 rest
    (res2.1, res.2.toList ++ res2.2)

/-- Publish a sequence of events, one `sendAll` per event, stopping at the first
panic — the cumulative effect of the fanout across successive transitions. -/
def publishSeq (qs : List Channel) : List MicEvent → Option (List Channel)
  | [] => some qs
  | e :: rest =>
    match sendAll e qs with
    | none => none
    | some qs2 => publishSeq qs2 rest

/-- "At least one Rising transition has occurred since the last Falling
transition", read over the event history given most-recent-first: a `Suspended`
entry is skipped (the detector itself never emits it). -/
def risingSinceLastFalling : List MicEvent → Bool
  | [] => false
  | MicEvent.Active :: _ => true
  | MicEvent.Inactive :: _ => false
  | MicEvent.Suspended :: rest => risingSinceLastFalling rest


/-! ## Basic facts about the hysteresis step -/

/-- The hysteresis step never touches the consumer queues. -/
theorem on_sample_queues (st : CaptureState) (mx now : ℚ) :
    ((on_sample st mx now).1).queues = st.queues := by
  simp only [on_sample]
  split_ifs <;> rfl

/-- The hysteresis step never changes the configured threshold. -/
theorem on_sample_threshold (st : CaptureState) (mx now : ℚ) :
    ((on_sample st mx now).1).threshold = st.threshold := by
  simp only [on_sample]
  split_ifs <;> rfl

/-- The hysteresis step never changes the configured hold time. -/
theorem on_sample_hold_time (st : CaptureState) (mx now : ℚ) :
    ((on_sample st mx now).1).hold_time = st.hold_time := by
  simp only [on_sample]
  split_ifs <;> rfl

/-- After a hysteresis step, `is_on` agrees with the deadline test
`now <= falloff` evaluated on the post-state deadline. -/
theorem on_sample_is_on_eq (st : CaptureState) (mx now : ℚ) :
    ((on_sample st mx now).1).is_on = decide (now ≤ ((on_sample st mx now).1).falloff) := by
  simp only [on_sample]
  split_ifs with h1 h2 h3 <;> simp_all

/-- If `is_on` agrees with "a Rising since the last Falling" over the event
history so far, that agreement is preserved by one hysteresis step (history
taken most-recent-first). -/
theorem on_sample_history (st : CaptureState) (mx now : ℚ) (hist : List MicEvent)
    (h : st.is_on = risingSinceLastFalling hist) :
    ((on_sample st mx now).1).is_on
      = risingSinceLastFalling (((on_sample st mx now).2).toList.reverse ++ hist) := by
  simp only [on_sample]
  split_ifs with h1 h2 h3 <;> simp_all [risingSinceLastFalling]

/-- While already active, a run of above-threshold samples emits no event and
stays active (hold times are durations, hence nonnegative). -/
theorem runSamples_on_loud (inputs : List (ℚ × ℚ)) : ∀ st : CaptureState,
    st.is_on = true → 0 ≤ st.hold_time → (∀ p ∈ inputs, st.threshold < p.1) →
    (runSamples st inputs).2 = [] ∧ ((runSamples st inputs).1).is_on = true := by
  induction inputs with
  | nil => intro st h1 _ _; simpa [runSamples] using h1
  | cons p rest ih =>
    intro st h1 h2 h3
    obtain ⟨mx, now⟩ := p
    have hstep : on_sample st mx now = ({ st with falloff := now + st.hold_time }, none) := by
      have hmx : st.threshold < mx := h3 (mx, now) (List.mem_cons_self _ _)
      have hle : now ≤ now + st.hold_time := by linarith
      simp [on_sample, hmx, h1, hle]
    have hrest := ih { st with falloff := now + st.hold_time } h1 h2
      (by intro q hq; exact h3 q (List.mem_cons_of_mem _ hq))
    simp [runSamples, hstep, hrest.1, hrest.2]

/-! ## Trace lemmas for the invariant and the decay scenario -/

/-- Invariant propagation along a run: starting from a state whose `is_on`
agrees with the event history, after processing any prefix the post-state
`is_on` holds iff that call's `now` is at most the post-state deadline and a
Rising has occurred since the last Falling. -/
theorem runSamples_take_invariant (inputs : List (ℚ × ℚ)) :
    ∀ (st : CaptureState) (hist : List MicEvent),
      st.is_on = risingSinceLastFalling hist →
      ∀ i (hi : i < inputs.length),
        ((runSamples st (inputs.take (i+1))).1.is_on = true ↔
          ((inputs.get ⟨i, hi⟩).2 ≤ (runSamples st (inputs.take (i+1))).1.falloff ∧
           risingSinceLastFalling ((runSamples st (inputs.take (i+1))).2.reverse ++ hist) = true)) := by
  induction inputs with
  | nil => intro st hist h i hi; exact absurd hi (by simp)
  | cons p rest ih =>
    intro st hist h i hi
    obtain ⟨mx, now⟩ := p
    match i with
    | 0 =>
      simp only [List.take_succ_cons, List.take_zero, runSamples, List.append_nil, List.get]
      constructor
      · intro hon
        refine ⟨?_, ?_⟩
        · have hA := on_sample_is_on_eq st mx now
          rw [hA] at hon
          exact of_decide_eq_true hon
        · rw [← on_sample_history st mx now hist h]
          exact hon
      · rintro ⟨-, hr⟩
        rw [on_sample_history st mx now hist h]
        exact hr
    | Nat.succ j =>
      have hj : j < rest.length := by simpa using hi
      have hB := on_sample_history st mx now hist h
      have ihj := ih (on_sample st mx now).1 ((on_sample st mx now).2.toList.reverse ++ hist) hB j hj
      simp only [List.take_succ_cons, runSamples, List.get] at *
      rw [List.reverse_append, List.append_assoc]
      exact ihj

/-- A below-threshold run past the deadline, starting inactive, changes nothing
and emits nothing. -/
theorem runSamples_off_quiet (inputs : List (ℚ × ℚ)) : ∀ st : CaptureState,
    st.is_on = false → (∀ p ∈ inputs, p.1 ≤ st.threshold) → (∀ p ∈ inputs, st.falloff < p.2) →
    runSamples st inputs = (st, []) := by
  induction inputs with
  | nil => intro st _ _ _; rfl
  | cons p rest ih =>
    intro st h1 h2 h3
    obtain ⟨mx, t⟩ := p
    have hstep : on_sample st mx t = (st, none) := by
      have hq : ¬ st.threshold < mx := not_lt.2 (h2 (mx, t) (List.mem_cons_self _ _))
      have hl : ¬ t ≤ st.falloff := not_le.2 (h3 (mx, t) (List.mem_cons_self _ _))
      simp [on_sample, hq, h1, hl]
    have hr := ih st h1 (fun q hq2 => h2 q (List.mem_cons_of_mem _ hq2))
      (fun q hq2 => h3 q (List.mem_cons_of_mem _ hq2))
    simp [runSamples, hstep, hr]

/-- Silence after activity: over a below-threshold run with nondecreasing
timestamps starting in the active state, exactly one `Inactive` event is
emitted iff some sample is past the deadline, and after each prefix the state
is active iff that prefix's last timestamp is within the deadline. -/
theorem runSamples_on_quiet (inputs : List (ℚ × ℚ)) : ∀ st : CaptureState,
    st.is_on = true →
    (∀ p ∈ inputs, p.1 ≤ st.threshold) →
    List.Pairwise (fun a b : ℚ × ℚ => a.2 ≤ b.2) inputs →
    ((runSamples st inputs).2
        = if inputs.any (fun p => decide (st.falloff < p.2)) then [MicEvent.Inactive] else []) ∧
    (∀ i (hi : i < inputs.length),
      ((runSamples st (inputs.take (i+1))).1).is_on = decide ((inputs.get ⟨i, hi⟩).2 ≤ st.falloff)) := by
  induction inputs with
  | nil =>
    intro st h1 h2 h3
    exact ⟨by simp [runSamples], fun i hi => absurd hi (by simp)⟩
  | cons p rest ih =>
    intro st h1 h2 hpw
    obtain ⟨mx, t⟩ := p
    have hq : ¬ st.threshold < mx := not_lt.2 (h2 (mx, t) (List.mem_cons_self _ _))
    rcases le_or_lt t st.falloff with hle | hlt
    · have hstep : on_sample st mx t = (st, none) := by simp [on_sample, hq, h1, hle]
      have ihr := ih st h1 (fun q hq2 => h2 q (List.mem_cons_of_mem _ hq2)) hpw.of_cons
      refine ⟨?_, ?_⟩
      · have hd : decide (st.falloff < t) = false := decide_eq_false (not_lt.2 hle)
        simp [runSamples, hstep, ihr.1, List.any_cons]
        rw [hd]
        rfl
      · intro i hi
        match i with
        | 0 => simp [List.take_succ_cons, List.take_zero, runSamples, hstep, h1, hle]
        | Nat.succ j =>
          have hj : j < rest.length := by simpa using hi
          have := ihr.2 j hj
          simpa [List.take_succ_cons, runSamples, hstep, List.get] using this
    · have hstep : on_sample st mx t = ({ st with is_on := false }, some MicEvent.Inactive) := by
        simp [on_sample, hq, h1, not_le.2 hlt]
      have hrest : ∀ q ∈ rest, st.falloff < q.2 := by
        intro q hq2
        exact lt_of_lt_of_le hlt ((List.pairwise_cons.1 hpw).1 q hq2)
      have hoff := runSamples_off_quiet rest { st with is_on := false } rfl
        (fun q hq2 => h2 q (List.mem_cons_of_mem _ hq2)) hrest
      refine ⟨?_, ?_⟩
      · simp [runSamples, hstep, hoff, List.any_cons, hlt]
      · intro i hi
        match i with
        | 0 => simp [List.take_succ_cons, List.take_zero, runSamples, hstep, not_le.2 hlt]
        | Nat.succ j =>
          have hj : j < rest.length := by simpa using hi
          have hofftake := runSamples_off_quiet (rest.take (j+1)) { st with is_on := false } rfl
            (fun q hq2 => h2 q (List.mem_cons_of_mem _ (List.mem_of_mem_take hq2)))
            (fun q hq2 => hrest q (List.mem_of_mem_take hq2))
          have hmem : rest.get ⟨j, hj⟩ ∈ rest := List.get_mem _ _ _
          have hnle : ¬ (rest.get ⟨j, hj⟩).2 ≤ st.falloff := not_le.2 (hrest _ hmem)
          simp [List.take_succ_cons, runSamples, hstep, hofftake, hnle, List.get]
          exact hrest _ (List.get_mem rest j hj)

/-! ## Lemmas about the peak fold -/

/-- The running maximum of the peak loop never drops below its accumulator. -/
theorem foldl_max_init_le (l : List ℚ) : ∀ init : ℚ,
    init ≤ l.foldl (fun m s => max |s| m) init := by
  induction l with
  | nil => intro init; exact le_refl _
  | cons a t ih =>
    intro init
    rw [List.foldl_cons]
    exact le_trans (le_max_right |a| init) (ih (max |a| init))

/-- Every sample's absolute value is bounded by the peak loop's result. -/
theorem foldl_max_mem_le (l : List ℚ) : ∀ (init x : ℚ), x ∈ l →
    |x| ≤ l.foldl (fun m s => max |s| m) init := by
  induction l with
  | nil => intro _ x hx; cases hx
  | cons a t ih =>
    intro init x hx
    rw [List.foldl_cons]
    rcases List.mem_cons.1 hx with rfl | hx2
    · exact le_trans (le_max_left |x| init) (foldl_max_init_le t _)
    · exact ih _ x hx2

/-- The peak loop's result is its accumulator or some sample's absolute value. -/
theorem foldl_max_eq_init_or_mem (l : List ℚ) : ∀ init : ℚ,
    l.foldl (fun m s => max |s| m) init = init ∨
      ∃ x ∈ l, l.foldl (fun m s => max |s| m) init = |x| := by
  induction l with
  | nil => intro init; exact Or.inl rfl
  | cons a t ih =>
    intro init
    rw [List.foldl_cons]
    rcases ih (max |a| init) with h | ⟨x, hx, hfx⟩
    · rcases max_cases |a| init with ⟨he, _⟩ | ⟨he, _⟩
      · exact Or.inr ⟨a, List.mem_cons_self _ _, by rw [h, he]⟩
      · exact Or.inl (by rw [h, he])
    · exact Or.inr ⟨x, List.mem_cons_of_mem _ hx, hfx⟩

/-! ## Lemmas about the fanout loop -/

/-- When every receiving end is still alive, the send loop delivers the event
to every channel in place, appending it to each FIFO. -/
theorem sendAll_open (e : MicEvent) : ∀ qs : List Channel,
    (∀ q ∈ qs, q.closed = false) →
    sendAll e qs = some (qs.map fun q => { q with buf := q.buf ++ [e] }) := by
  intro qs
  induction qs with
  | nil => intro _; rfl
  | cons q rest ih =>
    intro h
    have hq : q.closed = false := h q (List.mem_cons_self _ _)
    have hr := ih (fun p hp => h p (List.mem_cons_of_mem _ hp))
    simp [sendAll, Channel.send, hq, hr]

/-- If any registered channel's receiving end was dropped, the send loop hits
its `.expect` and the process panics. -/
theorem sendAll_closed (e : MicEvent) : ∀ qs : List Channel,
    (∃ q ∈ qs, q.closed = true) → sendAll e qs = none := by
  intro qs
  induction qs with
  | nil => rintro ⟨q, hq, -⟩; cases hq
  | cons q rest ih =>
    rintro ⟨p, hp, hc⟩
    rcases List.mem_cons.1 hp with rfl | hp2
    · simp [sendAll, Channel.send, hc]
    · cases hq : q.closed
      · simp [sendAll, Channel.send, hq, ih ⟨p, hp2, hc⟩]
      · simp [sendAll, Channel.send, hq]

/-! ## The claims -/

/-- Claim C1: the threshold comparison is strict and the deadline comparison is
inclusive.  A peak exactly equal to `threshold` while inactive and past the
deadline causes no rising transition and leaves the state untouched; any peak
strictly above `threshold` leaves the detector active after the call (the hold
time, a Rust `Duration`, is nonnegative); and at `now` exactly equal to the
deadline an active state remains active (inclusive `<=`). -/
theorem threshold_strict_deadline_inclusive (st : CaptureState) (mx now : ℚ) :
    (st.is_on = false → st.falloff < now → mx = st.threshold →
      on_sample st mx now = (st, none)) ∧
    (0 ≤ st.hold_time → st.threshold < mx →
      ((on_sample st mx now).1).is_on = true) ∧
    (st.is_on = true → mx ≤ st.threshold → now = st.falloff →
      on_sample st mx now = (st, none)) := by
  refine ⟨fun h1 h2 h3 => ?_, fun h1 h2 => ?_, fun h1 h2 h3 => ?_⟩ <;>
    (simp only [on_sample]; split_ifs <;> simp_all <;> linarith)

/-- Claim C1 witness at threshold 1, hold time 1: an equal-to-threshold sample
past the deadline does nothing; an above-threshold sample activates; a quiet
sample at `now` exactly the deadline stays active. -/
theorem threshold_strict_deadline_inclusive_witness :
    on_sample ⟨[], 1, 1, 0, false⟩ 1 2 = (⟨[], 1, 1, 0, false⟩, none) ∧
    ((on_sample ⟨[], 1, 1, 0, false⟩ 2 5).1).is_on = true ∧
    on_sample ⟨[], 1, 1, 7, true⟩ 1 7 = (⟨[], 1, 1, 7, true⟩, none) :=
  ⟨(threshold_strict_deadline_inclusive ⟨[], 1, 1, 0, false⟩ 1 2).1 rfl (by decide) rfl,
   (threshold_strict_deadline_inclusive ⟨[], 1, 1, 0, false⟩ 2 5).2.1 (by decide) (by decide),
   (threshold_strict_deadline_inclusive ⟨[], 1, 1, 7, true⟩ 1 7).2.2 rfl (by decide) rfl⟩

/-- Claim C2: immediately after every processing call of a run started from the
freshly created state (where `is_on = false` and no Rising was emitted yet),
`is_on` holds iff that call's `now` is at most the current `falloff` deadline
and at least one Rising has occurred since the last Falling. -/
theorem is_on_invariant (senders : List Channel) (thr ht t0 : ℚ)
    (inputs : List (ℚ × ℚ)) (i : ℕ) (hi : i < inputs.length) :
    ((runSamples (create_capture senders thr ht t0) (inputs.take (i+1))).1.is_on = true ↔
      ((inputs.get ⟨i, hi⟩).2
          ≤ (runSamples (create_capture senders thr ht t0) (inputs.take (i+1))).1.falloff ∧
       risingSinceLastFalling
          ((runSamples (create_capture senders thr ht t0) (inputs.take (i+1))).2.reverse) = true)) := by
  have h := runSamples_take_invariant inputs (create_capture senders thr ht t0) [] rfl i hi
  simpa using h

/-- Claim C2 witness: one quiet call at the creation instant itself. -/
theorem is_on_invariant_witness :
    ((runSamples (create_capture [] 1 1 0) ([((0:ℚ), (0:ℚ))].take (0+1))).1.is_on = true ↔
      (([((0:ℚ), (0:ℚ))].get ⟨0, by decide⟩).2
          ≤ (runSamples (create_capture [] 1 1 0) ([((0:ℚ), (0:ℚ))].take (0+1))).1.falloff ∧
       risingSinceLastFalling
          ((runSamples (create_capture [] 1 1 0) ([((0:ℚ), (0:ℚ))].take (0+1))).2.reverse) = true)) :=
  is_on_invariant [] 1 1 0 [(0, 0)] 0 (by decide)

/-- Claim C3: an event is produced iff `is_on` changes on that call — `Active`
exactly on a false-to-true change, `Inactive` exactly on a true-to-false
change, nothing otherwise; and any number of consecutive above-threshold
samples processed while already active produce zero events. -/
theorem event_iff_activity_change (st : CaptureState) (mx now : ℚ) (loud : List (ℚ × ℚ)) :
    ((on_sample st mx now).2 = some MicEvent.Active ↔
      st.is_on = false ∧ ((on_sample st mx now).1).is_on = true) ∧
    ((on_sample st mx now).2 = some MicEvent.Inactive ↔
      st.is_on = true ∧ ((on_sample st mx now).1).is_on = false) ∧
    ((on_sample st mx now).2 = none ↔ ((on_sample st mx now).1).is_on = st.is_on) ∧
    (st.is_on = true → 0 ≤ st.hold_time → (∀ p ∈ loud, st.threshold < p.1) →
      (runSamples st loud).2 = []) := by
  refine ⟨?_, ?_, ?_, fun h1 h2 h3 => (runSamples_on_loud loud st h1 h2 h3).1⟩ <;>
    (simp only [on_sample]; split_ifs <;> simp_all)

/-- Claim C3 witness: a loud sample processed while already active and within
the hold window emits nothing. -/
theorem event_iff_activity_change_witness :
    (runSamples (⟨[], 1, 1, 9, true⟩ : CaptureState) [((2:ℚ), (0:ℚ))]).2 = [] :=
  (event_iff_activity_change ⟨[], 1, 1, 9, true⟩ 2 0 [(2, 0)]).2.2.2 rfl (by decide) (by decide)

/-- Claim C4: every above-threshold sample refreshes the hold window, setting
`falloff = now + hold_time`; consequently after loud samples at `t = 0` and
`t = hold_time / 2`, a processed sample at any `t <= hold_time / 2 + hold_time`
still finds the detector active — not merely until `hold_time`. -/
theorem hold_window_refresh (st : CaptureState) (mx now : ℚ)
    (senders : List Channel) (thr ht m1 m2 mq t : ℚ) :
    (st.threshold < mx → ((on_sample st mx now).1).falloff = now + st.hold_time) ∧
    (0 ≤ ht → thr < m1 → thr < m2 → mq ≤ thr → t ≤ ht / 2 + ht →
      ((runSamples (create_capture senders thr ht 0) [(m1, 0), (m2, ht / 2), (mq, t)]).1).is_on
        = true) := by
  constructor
  · intro h
    simp only [on_sample]
    split_ifs <;> simp_all
  · intro h0 h1 h2 h3 h4
    have s1 : on_sample (create_capture senders thr ht 0) m1 0
        = (⟨senders, thr, ht, ht, true⟩, some MicEvent.Active) := by
      simp [on_sample, create_capture, h1, h0]
    have s2 : on_sample (⟨senders, thr, ht, ht, true⟩ : CaptureState) m2 (ht/2)
        = (⟨senders, thr, ht, ht/2 + ht, true⟩, none) := by
      have hle : ht/2 ≤ ht/2 + ht := by linarith
      simp [on_sample, h2, hle]
    have s3 : on_sample (⟨senders, thr, ht, ht/2 + ht, true⟩ : CaptureState) mq t
        = (⟨senders, thr, ht, ht/2 + ht, true⟩, none) := by
      simp [on_sample, not_lt.2 h3, h4]
    simp [runSamples, s1, s2, s3]

/-- Claim C4 witness: a loud sample refreshes the deadline, and the two-loud-
samples scenario (degenerate hold time 0) stays active through the last
processed sample. -/
theorem hold_window_refresh_witness :
    ((on_sample ⟨[], 0, 1, 5, false⟩ 1 3).1).falloff
        = 3 + (⟨[], 0, 1, 5, false⟩ : CaptureState).hold_time ∧
    ((runSamples (create_capture [] 0 0 0) [((1:ℚ), 0), (1, 0 / 2), (0, 0)]).1).is_on = true :=
  ⟨(hold_window_refresh ⟨[], 0, 1, 5, false⟩ 1 3 [] 0 0 1 1 0 0).1 (by decide),
   (hold_window_refresh ⟨[], 0, 1, 5, false⟩ 1 3 [] 0 0 1 1 0 0).2
     (by decide) (by decide) (by decide) (by decide) (by simp)⟩

/-- Claim C5: one above-threshold sample at `t = 0` followed only by
below-threshold samples with nondecreasing timestamps yields exactly one
`Active` event, then exactly one `Inactive` event iff some later sample is past
`hold_time`; and after each processed sample the detector is active iff that
sample's timestamp is at most `hold_time`. -/
theorem hold_time_decay (senders : List Channel) (thr ht m0 : ℚ) (rest : List (ℚ × ℚ))
    (hht : 0 ≤ ht) (hm0 : thr < m0)
    (hq : ∀ p ∈ rest, p.1 ≤ thr)
    (hpw : List.Pairwise (fun a b : ℚ × ℚ => a.2 ≤ b.2) rest) :
    ((runSamples (create_capture senders thr ht 0) ((m0, 0) :: rest)).2
        = MicEvent.Active :: (if rest.any (fun p => decide (ht < p.2)) then [MicEvent.Inactive] else [])) ∧
    (∀ i (hi : i < rest.length),
      ((runSamples (create_capture senders thr ht 0) ((m0, 0) :: rest.take (i+1))).1).is_on
        = decide ((rest.get ⟨i, hi⟩).2 ≤ ht)) := by
  have hstep : on_sample (create_capture senders thr ht 0) m0 0
      = (⟨senders, thr, ht, ht, true⟩, some MicEvent.Active) := by
    simp [on_sample, create_capture, hm0, hht]
  have hquiet := runSamples_on_quiet rest ⟨senders, thr, ht, ht, true⟩ rfl (by simpa using hq) hpw
  constructor
  · simpa [runSamples, hstep] using hquiet.1
  · intro i hi
    have := hquiet.2 i hi
    simpa [runSamples, hstep] using this

/-- Claim C5 witness: threshold 0, hold time 1, one loud sample at `t = 0`,
one quiet sample at `t = 2`: a Rising then a Falling. -/
theorem hold_time_decay_witness :
    (runSamples (create_capture [] 0 1 0) (((1:ℚ), (0:ℚ)) :: [((0:ℚ), (2:ℚ))])).2
      = MicEvent.Active ::
          (if [((0:ℚ), (2:ℚ))].any (fun p => decide ((1:ℚ) < p.2)) then [MicEvent.Inactive] else []) :=
  (hold_time_decay [] 0 1 1 [(0, 2)] (by decide) (by decide) (by decide) (by simp)).1

/-- Claim C6: for a non-empty buffer the extracted peak is the maximum of the
absolute values of all samples — all channels and sample frames interleaved in
one flat buffer — i.e. it bounds every sample's absolute value and is attained
by one of them.  `peak` is a pure function of the sample list: computing it
touches neither the buffer nor the detector state. -/
theorem peak_is_max_abs (l : List ℚ) (h : l ≠ []) :
    (∀ x ∈ l, |x| ≤ peak l) ∧ ∃ x ∈ l, peak l = |x| := by
  simp only [peak]
  refine ⟨fun x hx => foldl_max_mem_le l 0 x hx, ?_⟩
  rcases foldl_max_eq_init_or_mem l 0 with h0 | hm
  · obtain ⟨a, t, rfl⟩ := List.exists_cons_of_ne_nil h
    have h1 : |a| ≤ (a :: t).foldl (fun m s => max |s| m) 0 :=
      foldl_max_mem_le _ 0 a (List.mem_cons_self _ _)
    have h2 : |a| = 0 := le_antisymm (h0 ▸ h1) (abs_nonneg a)
    exact ⟨a, List.mem_cons_self _ _, by rw [h0, h2]⟩
  · exact hm

/-- Claim C6 witness on the buffer `[1, -2]`. -/
theorem peak_is_max_abs_witness :
    (∀ x ∈ [(1:ℚ), -2], |x| ≤ peak [(1:ℚ), -2]) ∧ ∃ x ∈ [(1:ℚ), -2], peak [(1:ℚ), -2] = |x| :=
  peak_is_max_abs [1, -2] (by decide)

/-- Claim C7: a zero-length buffer yields peak `0`, is treated as silence, and
never triggers a rising transition: the frame handler returns successfully
(no failure) with the state untouched and no event. -/
theorem empty_buffer_silent (now : ℚ) (st : CaptureState) :
    peak [] = 0 ∧ on_microphone_frame [] now st = some (st, none) :=
  ⟨rfl, rfl⟩

/-- Claim C8: publishing any sequence of events to open consumer channels
appends exactly that sequence, in order and with no drops, to every registered
consumer's FIFO. -/
theorem fanout_fifo_order : ∀ (evs : List MicEvent) (qs : List Channel),
    (∀ q ∈ qs, q.closed = false) →
    publishSeq qs evs = some (qs.map fun q => { q with buf := q.buf ++ evs }) := by
  intro evs
  induction evs with
  | nil =>
    intro qs h
    have hid : (fun q : Channel => { q with buf := q.buf ++ ([] : List MicEvent) }) = fun q => q := by
      funext q
      simp
    simp [publishSeq, hid]
  | cons e rest ih =>
    intro qs h
    have h1 := sendAll_open e qs h
    have h2 := ih (qs.map fun q => { q with buf := q.buf ++ [e] })
      (by
        intro p hp
        simp only [List.mem_map] at hp
        obtain ⟨q, hq, rfl⟩ := hp
        exact h q hq)
    simp [publishSeq, h1, h2, List.map_map, Function.comp]

/-- Claim C8 witness: the sequence Rising, Falling, Rising reaches both of two
registered consumers exactly in that order. -/
theorem fanout_fifo_order_witness :
    publishSeq [⟨false, []⟩, ⟨false, []⟩] [MicEvent.Active, MicEvent.Inactive, MicEvent.Active]
      = some (([⟨false, []⟩, ⟨false, []⟩] : List Channel).map fun q =>
          { q with buf := q.buf ++ [MicEvent.Active, MicEvent.Inactive, MicEvent.Active] }) :=
  fanout_fifo_order [MicEvent.Active, MicEvent.Inactive, MicEvent.Active]
    [⟨false, []⟩, ⟨false, []⟩] (by decide)

/-- Claim C9: if any registered consumer channel's receiving end was dropped,
publishing is fatal for the whole process (the `.expect` panic, modelled as
`none`), and the same fatal policy applies at both emission sites: the frame
handler whenever it produces an event, and the stream-state-change handler on
both of its emitting transitions. -/
theorem broken_channel_fatal (st : CaptureState) (samples : List ℚ) (now : ℚ) (e : MicEvent)
    (hclosed : ∃ q ∈ st.queues, q.closed = true)
    (hev : (on_sample st (peak samples) now).2 = some e)
    (hne : samples ≠ []) :
    on_microphone_frame samples now st = none ∧
    on_microphone_state_changed st StreamState.Paused StreamState.Streaming = none ∧
    on_microphone_state_changed st StreamState.Streaming StreamState.Paused = none := by
  refine ⟨?_, ?_, ?_⟩
  · have hlen : ¬ samples.length = 0 := by simpa using hne
    have hq : ((on_sample st (peak samples) now).1).queues = st.queues :=
      on_sample_queues st (peak samples) now
    have hsend : sendAll e ((on_sample st (peak samples) now).1).queues = none := by
      rw [hq]
      exact sendAll_closed e st.queues hclosed
    simp [on_microphone_frame, hlen, hev, hsend]
  · simp [on_microphone_state_changed, sendAll_closed MicEvent.Inactive st.queues hclosed]
  · simp [on_microphone_state_changed, sendAll_closed MicEvent.Suspended st.queues hclosed]

/-- Claim C9 witness: one closed consumer channel, a falling transition — both
emission sites panic. -/
theorem broken_channel_fatal_witness :
    on_microphone_frame [0] 1 ⟨[⟨true, []⟩], 0, 0, 0, true⟩ = none ∧
    on_microphone_state_changed ⟨[⟨true, []⟩], 0, 0, 0, true⟩
        StreamState.Paused StreamState.Streaming = none ∧
    on_microphone_state_changed ⟨[⟨true, []⟩], 0, 0, 0, true⟩
        StreamState.Streaming StreamState.Paused = none :=
  broken_channel_fatal ⟨[⟨true, []⟩], 0, 0, 0, true⟩ [0] 1 MicEvent.Inactive
    (by decide) (by decide) (by decide)

/-- Claim C10: a zero-sample buffer makes the frame handler return before any
hysteresis logic: state and deadline untouched, nothing published — even when
the hold window has already expired while active; the pending Falling
transition is then emitted by the next non-empty below-threshold buffer. -/
theorem empty_buffer_defers (st : CaptureState) (now1 now2 : ℚ) (samples : List ℚ)
    (hon : st.is_on = true)
    (hopen : ∀ q ∈ st.queues, q.closed = false)
    (hlate : st.falloff < now2)
    (hquiet : peak samples ≤ st.threshold)
    (hne : samples ≠ []) :
    on_microphone_frame [] now1 st = some (st, none) ∧
    on_microphone_frame samples now2 st =
      some ({ st with
                is_on := false,
                queues := st.queues.map (fun q => { q with buf := q.buf ++ [MicEvent.Inactive] }) },
        some MicEvent.Inactive) := by
  refine ⟨rfl, ?_⟩
  have hstep : on_sample st (peak samples) now2 = ({ st with is_on := false }, some MicEvent.Inactive) := by
    simp [on_sample, not_lt.2 hquiet, hon, not_le.2 hlate]
  have hlen : ¬ samples.length = 0 := by simpa using hne
  simp [on_microphone_frame, hlen, hstep, sendAll_open MicEvent.Inactive st.queues hopen]

/-- Claim C10 witness: active state past its deadline — an empty buffer changes
nothing, the next quiet non-empty buffer emits the Falling event. -/
theorem empty_buffer_defers_witness :
    on_microphone_frame [] 1 ⟨[⟨false, []⟩], 0, 0, 0, true⟩
        = some (⟨[⟨false, []⟩], 0, 0, 0, true⟩, none) ∧
    on_microphone_frame [0] 1 ⟨[⟨false, []⟩], 0, 0, 0, true⟩ =
      some ({ (⟨[⟨false, []⟩], 0, 0, 0, true⟩ : CaptureState) with
                is_on := false,
                queues := ([⟨false, []⟩] : List Channel).map
                  (fun q => { q with buf := q.buf ++ [MicEvent.Inactive] }) },
        some MicEvent.Inactive) :=
  empty_buffer_defers ⟨[⟨false, []⟩], 0, 0, 0, true⟩ 1 1 [0]
    rfl (by decide) (by decide) (by decide) (by decide)

end PwMicclick
